import Mathlib

/-!
Verification of the streaming-chat ingestion pipeline, the sentinel
code-block extractor, the line diff and the chat clear action of the
LaTeX paper-writing frontend.

Strings are embedded as `List Char` (JavaScript strings at the code-unit
level; all inputs of interest are within the BMP so characters coincide
with code units).  Each definition below is a direct transcription of the
corresponding source function, named after it where Lean permits.
-/

abbrev Str := List Char

def str (s : String) : Str := s.toList

/-- The JavaScript whitespace predicate used by `trim`, `trimStart` and
`trimEnd`, restricted to the whitespace characters that actually occur in
the data handled here (space, tab, newline, carriage return). -/
def jsIsWs (c : Char) : Bool := c = ' ' || c = '\t' || c = '\n' || c = '\r'

/-- JavaScript `String.prototype.trimStart`. -/
def trimStart (s : Str) : Str := s.dropWhile jsIsWs

/-- JavaScript `String.prototype.trimEnd`. -/
def trimEnd (s : Str) : Str := (s.reverse.dropWhile jsIsWs).reverse

/-- JavaScript `String.prototype.trim`. -/
def jsTrim (s : Str) : Str := trimStart (trimEnd s)

/-- JavaScript `String.prototype.indexOf(pat)`: index of the first
occurrence of `pat` in `s`, or `none` where JS returns `-1`. -/
def listIndexOf (pat : Str) : Str → Option Nat
  | [] => if pat.isPrefixOf ([] : Str) then some 0 else none
  | c :: t =>
      if pat.isPrefixOf (c :: t) then some 0
      else (listIndexOf pat t).map (· + 1)

/-- JavaScript `String.prototype.indexOf(pat, k)`: index of the first
occurrence of `pat` in `s` at a position `≥ k`. -/
def listIndexOfFrom (pat s : Str) (k : Nat) : Option Nat :=
  (listIndexOf pat (s.drop k)).map (· + k)

/-- JavaScript `String.prototype.slice(a, b)` (for `0 ≤ a ≤ b`). -/
def jsSlice (s : Str) (a b : Nat) : Str := (s.take b).drop a

/-- JavaScript `[x, y, z].filter(Boolean).join("\n\n")`: drop the empty
strings, join the rest with a blank line. -/
def joinBlankLine (parts : List Str) : Str :=
  List.intercalate (str "\n\n") (parts.filter (· ≠ []))

/- Sentinel constants from ResearchAssistant.tsx. -/

def APPLY_CODE_START : Str := str "<<<APPLY_CODE>>>"
def APPLY_CODE_END : Str := str "<<<END_CODE>>>"
def APPLYING_CODE_MARKER : Str := str "[[APPLYING_CODE]]"
def APPLIED_CODE_MARKER : Str := str "[[APPLIED_CODE]]"

/-- Result of `processApplyCodeBlocksForDisplay`: the sanitized display
text, the extracted code when a complete block was found, and the
completeness flag. -/
structure ProcessedBlock where
  display : Str
  extractedCode : Option Str := none
  hasCompleteBlock : Bool
deriving Repr, DecidableEq

/-- Transcription of `processApplyCodeBlocksForDisplay` from
ResearchAssistant.tsx (lines 152-189): find the start sentinel, then the
end sentinel after it; pass text through when no start sentinel is
present; in the streaming case show the trimmed prefix, plus the
"applying" marker when `showMarker` is set; in the complete case join the
trimmed prefix, the "applied" marker (when `showMarker`) and the trimmed
suffix around a blank line, returning the trimmed enclosed code. -/
def processApplyCodeBlocksForDisplay (raw : Str) (showMarker : Bool) :
    ProcessedBlock :=
  match listIndexOf APPLY_CODE_START raw with
  | none => { display := raw, hasCompleteBlock := false }
  | some startIdx =>
    match listIndexOfFrom APPLY_CODE_END raw (startIdx + APPLY_CODE_START.length) with
    | none =>
      let before := trimEnd (raw.take startIdx)
      let display :=
        if showMarker then joinBlankLine [before, APPLYING_CODE_MARKER]
        else before
      { display := display, hasCompleteBlock := false }
    | some endIdx =>
      let codeBlock := jsTrim (jsSlice raw (startIdx + APPLY_CODE_START.length) endIdx)
      let before := trimEnd (raw.take startIdx)
      let after := trimStart (raw.drop (endIdx + APPLY_CODE_END.length))
      let display :=
        if showMarker then joinBlankLine [before, APPLIED_CODE_MARKER, after]
        else joinBlankLine [before, after]
      { display := display, extractedCode := some codeBlock,
        hasCompleteBlock := true }

/-! ## Line diff (LaTeXEditor.tsx, `computeChangedLines`, lines 319-338) -/

/-- JavaScript `String.prototype.split("\n")`: `""` splits to `[""]`,
separators delimit (possibly empty) fields. -/
def splitLines : Str → List Str
  | [] => [[]]
  | c :: t =>
      if c = '\n' then [] :: splitLines t
      else
        match splitLines t with
        | [] => [[c]]
        | h :: r => (c :: h) :: r

/-- `lines[i] ?? ""`: the i-th line of the split, the empty string when
out of range. -/
def lineAt (s : Str) (i : Nat) : Str := (splitLines s).getD i []

/-- Transcription of `computeChangedLines`: split both snapshots on the
newline character, compare index by index up to the longer length with a
missing line read as the empty string, and collect the 1-indexed
positions that differ. -/
def computeChangedLines (oldCode newCode : Str) : Finset Nat :=
  let maxLen := max (splitLines oldCode).length (splitLines newCode).length
  ((Finset.range maxLen).filter
      (fun i => lineAt oldCode i ≠ lineAt newCode i)).image (· + 1)

/-! ## Chat state and the stream-event reducer
(ResearchAssistant.tsx, `sendMessageToBackend`, lines 648-827) -/

/-- The `Message` interface (image field omitted: it is never touched by
the stream loop). `codeAccepted` is the tri-state acceptance flag. -/
structure Msg where
  id : Str
  role : Str
  content : Str
  thoughts : Option Str := none
  currentThought : Option Str := none
  previousCode : Option Str := none
  appliedCode : Option Str := none
  codeAccepted : Option Bool := none
deriving Repr, DecidableEq

/-- A parsed stream event: a JSON object whose fields are all optional
and additive (`{content?, thought?, done?, error?}`). -/
structure SEvent where
  error : Option Str := none
  thought : Option Str := none
  content : Option Str := none
  done : Bool := false
deriving Repr, DecidableEq

/-- JavaScript truthiness of an optional string field: defined and
non-empty. -/
def strTruthy : Option Str → Bool
  | some s => s ≠ []
  | none => false

/-- The per-request configuration of `sendMessageToBackend`: the captured
`agentMode` flag, whether an `onApplyCode` callback is registered, the id
of the in-flight placeholder message, and the `latexCode` snapshot taken
before any change. -/
structure StreamCfg where
  agentMode : Bool
  hasApplyCallback : Bool
  aiMessageId : Str
  previousCodeSnapshot : Str
deriving Repr

/-- The mutable state of one streaming request: the React `messages`
list, the local accumulators of the read loop, the one-shot `codeApplied`
guard, the arguments passed to `onApplyCode` so far (in order), the
`error` banner state and the `isStreaming` flag. -/
structure StreamLoopState where
  messages : List Msg
  accumulatedContent : Str := []
  accumulatedThoughts : Str := []
  codeApplied : Bool := false
  applyCalls : List Str := []
  errorState : Option Str := none
  isStreaming : Bool := false
deriving Repr, DecidableEq

/-- The `shouldApplyCode` condition (lines 747-752 and 782-787):
`agentMode && !codeApplied && processed.hasCompleteBlock &&
processed.extractedCode && onApplyCode`, with JS truthiness on the
extracted string. -/
def shouldApplyCode (cfg : StreamCfg) (codeApplied : Bool)
    (processed : ProcessedBlock) : Bool :=
  cfg.agentMode && !codeApplied && processed.hasCompleteBlock &&
    strTruthy processed.extractedCode && cfg.hasApplyCallback

/-- Update of the in-flight message performed by both the `content` and
the `done` branches: store the sanitized display and, when the apply
fired, record the snapshot pair. -/
def updateAiMessage (cfg : StreamCfg) (processed : ProcessedBlock)
    (apply : Bool) (m : Msg) : Msg :=
  if m.id = cfg.aiMessageId then
    if apply then
      { m with content := processed.display,
               previousCode := some cfg.previousCodeSnapshot,
               appliedCode := processed.extractedCode }
    else { m with content := processed.display }
  else m

/-- The `data.content` branch (lines 733-773). -/
def contentStep (cfg : StreamCfg) (s : StreamLoopState) (delta : Str) :
    StreamLoopState :=
  let streaming := if s.accumulatedContent = [] then true else s.isStreaming
  let acc := s.accumulatedContent ++ delta
  let processed := processApplyCodeBlocksForDisplay acc cfg.agentMode
  let apply := shouldApplyCode cfg s.codeApplied processed
  { s with
    isStreaming := streaming,
    accumulatedContent := acc,
    codeApplied := s.codeApplied || apply,
    applyCalls :=
      s.applyCalls ++ (if apply then [processed.extractedCode.getD []] else []),
    messages := s.messages.map (updateAiMessage cfg processed apply) }

/-- The `data.done` branch (lines 775-808): one final sanitize and apply
pass over the accumulated content. -/
def doneStep (cfg : StreamCfg) (s : StreamLoopState) : StreamLoopState :=
  let processed :=
    processApplyCodeBlocksForDisplay s.accumulatedContent cfg.agentMode
  let apply := shouldApplyCode cfg s.codeApplied processed
  { s with
    codeApplied := s.codeApplied || apply,
    applyCalls :=
      s.applyCalls ++ (if apply then [processed.extractedCode.getD []] else []),
    messages := s.messages.map (updateAiMessage cfg processed apply) }

/-- The `data.thought` branch (lines 716-731). -/
def thoughtStep (cfg : StreamCfg) (s : StreamLoopState) (t : Str) :
    StreamLoopState :=
  let acc := s.accumulatedThoughts ++ t
  { s with
    accumulatedThoughts := acc,
    messages := s.messages.map (fun m =>
      if m.id = cfg.aiMessageId then
        { m with thoughts := some acc, currentThought := some t }
      else m) }

/-- Processing of one parsed `data:` line (lines 709-812).  A truthy
`error` field throws, but the throw is caught by the enclosing
`catch (parseError)` block meant for malformed JSON, so the event leaves
the state untouched and processing continues; otherwise the `thought`,
`content` and `done` branches run in source order (each guarded by JS
truthiness of its field). -/
def stepEvent (cfg : StreamCfg) (s : StreamLoopState) (e : SEvent) :
    StreamLoopState :=
  if strTruthy e.error then s
  else
    let s1 := if strTruthy e.thought then thoughtStep cfg s (e.thought.getD []) else s
    let s2 := if strTruthy e.content then contentStep cfg s1 (e.content.getD []) else s1
    if e.done then doneStep cfg s2 else s2

/-- Does this event reach the `break` after the `done` branch?  Only when
the `done` field is truthy and no truthy `error` threw first. -/
def eventBreaks (e : SEvent) : Bool := !strTruthy e.error && e.done

/-- The `for (const line of lines)` loop over the events of one decoded
chunk: a `done` event breaks out of the loop, dropping the rest of the
chunk's lines. -/
def runChunk (cfg : StreamCfg) (s : StreamLoopState) :
    List SEvent → StreamLoopState
  | [] => s
  | e :: rest =>
      let s' := stepEvent cfg s e
      if eventBreaks e then s' else runChunk cfg s' rest

/-- The outer `while (true)` read loop: the chunks of the response are
processed in order (the `break` of a `done` event only skips the rest of
its own chunk; the loop then reads the next chunk). -/
def runStream (cfg : StreamCfg) (s : StreamLoopState)
    (chunks : List (List SEvent)) : StreamLoopState :=
  chunks.foldl (runChunk cfg) s

/-- The state right after the placeholder assistant message was appended
(lines 662-668): prior messages plus an empty assistant message carrying
the fresh id. -/
def initState (priorMessages : List Msg) (cfg : StreamCfg) :
    StreamLoopState :=
  { messages :=
      priorMessages ++ [{ id := cfg.aiMessageId, role := str "assistant",
                          content := [] }] }

/-! ## Chat history persistence and the clear action
(ResearchAssistant.tsx, lines 538-546 and 850-853) -/

/-- An apostrophe character (U+0027). -/
def apos : Char := Char.ofNat 39

/-- `DEFAULT_MESSAGE`, the seed assistant greeting (lines 59-64). -/
def DEFAULT_MESSAGE : Msg :=
  { id := str "1", role := str "assistant",
    content :=
      str "Hello! I" ++ [apos] ++
      str "m your Gemini 3 co-scientist. I can help you research topics, fact-check your paper, or suggest improvements based on your LaTeX code. What are we working on?" }

/-- The persisted chat state: the live `messages` list and the value
stored under the chat-history key in client storage (modelled in parsed
form; `none` means the key is absent).  Serialization round-trips, so
storing the list itself is faithful. -/
structure PersistedChat where
  messages : List Msg
  stored : Option (List Msg)
deriving Repr, DecidableEq

/-- `clearChat` (lines 850-853): reset the list to the single seed
message and remove the chat-history key from storage. -/
def clearChat (_s : PersistedChat) : PersistedChat :=
  { messages := [DEFAULT_MESSAGE], stored := none }

/-- The save-on-change effect (lines 538-546): after every change of
`messages`, write the serialized list under the chat-history key. -/
def saveEffect (s : PersistedChat) : PersistedChat :=
  { s with stored := some s.messages }

/-- The observable clear action: `clearChat` runs, React re-renders, and
the save-on-change effect fires on the changed list. -/
def clearAction (s : PersistedChat) : PersistedChat := saveEffect (clearChat s)

/-! ## Incremental UTF-8 decoding
(ResearchAssistant.tsx, lines 688-705: `decoder.decode(value, { stream: true })`)

Modelled from the spec: the `TextDecoder` used by the read loop is a
browser API whose source is not part of this repository; the definitions
below model its documented streaming behaviour ("decodes UTF-8
incrementally (a multi-byte character may straddle chunk boundaries)"):
bytes of an incomplete trailing sequence are carried over to the next
`decode` call instead of being replaced. -/

/-- Declared length of a UTF-8 sequence from its lead byte; `none` for a
byte that cannot begin a sequence. -/
def utf8SeqLen (b : Nat) : Option Nat :=
  if b < 0x80 then some 1
  else if 0xC0 ≤ b ∧ b < 0xE0 then some 2
  else if 0xE0 ≤ b ∧ b < 0xF0 then some 3
  else if 0xF0 ≤ b ∧ b < 0xF8 then some 4
  else none

/-- Is `b` a UTF-8 continuation byte? -/
def isCont (b : Nat) : Bool := decide (0x80 ≤ b) && decide (b < 0xC0)

/-- The scalar value encoded by a lead byte and its continuation bytes. -/
def utf8SeqVal (b : Nat) (cont : List Nat) : Nat :=
  let lead :=
    match cont.length with
    | 0 => b
    | 1 => b - 0xC0
    | 2 => b - 0xE0
    | _ => b - 0xF0
  cont.foldl (fun a c => a * 64 + (c - 0x80)) lead

/-- The smallest scalar value a sequence of the given length may encode
(rejecting overlong forms). -/
def utf8MinVal : Nat → Nat
  | 0 => 0
  | 1 => 0
  | 2 => 0x80
  | 3 => 0x800
  | _ => 0x10000

/-- Unicode scalar values: in range and not a surrogate. -/
def validScalar (n : Nat) : Prop :=
  n < 0x110000 ∧ ¬ (0xD800 ≤ n ∧ n ≤ 0xDFFF)

instance (n : Nat) : Decidable (validScalar n) := by
  unfold validScalar; infer_instance

/-- Acceptance test for a complete sequence: continuation bytes in range
and the decoded value neither overlong, out of range, nor a surrogate. -/
def utf8SeqOk (b : Nat) (cont : List Nat) : Bool :=
  cont.all isCont &&
    decide (utf8MinVal (cont.length + 1) ≤ utf8SeqVal b cont) &&
    decide (validScalar (utf8SeqVal b cont))

/-- Worker of the streaming decoder, structurally recursive on a fuel
argument (one unit per decoded or rejected sequence, so the buffer length
is always enough fuel). -/
def utf8DecodeGo : Nat → List Nat → List Nat × List Nat
  | 0, buf => ([], buf)
  | _ + 1, [] => ([], [])
  | fuel + 1, b :: rest =>
      match utf8SeqLen b with
      | none =>
          let p := utf8DecodeGo fuel rest
          (0xFFFD :: p.1, p.2)
      | some len =>
          if rest.length + 1 < len then ([], b :: rest)
          else
            let cont := rest.take (len - 1)
            if utf8SeqOk b cont then
              let p := utf8DecodeGo fuel (rest.drop (len - 1))
              (utf8SeqVal b cont :: p.1, p.2)
            else
              let p := utf8DecodeGo fuel rest
              (0xFFFD :: p.1, p.2)

/-- One pass of the streaming decoder over its internal byte buffer:
emit the scalar values of the complete sequences (U+FFFD for invalid
input) and return the bytes of a trailing incomplete sequence as the new
carry-over. -/
def utf8DecodeLoop (buf : List Nat) : List Nat × List Nat :=
  utf8DecodeGo buf.length buf

/-- The read loop's use of the decoder: each network chunk is decoded
with `stream: true`, prepending the carry-over bytes of the previous
call; the first component collects all scalar values produced. -/
def textDecoderRun (chunks : List (List Nat)) : List Nat × List Nat :=
  chunks.foldl
    (fun acc chunk =>
      let p := utf8DecodeLoop (acc.2 ++ chunk)
      (acc.1 ++ p.1, p.2))
    ([], [])

/-- UTF-8 encoding of a scalar value. -/
def utf8Encode (n : Nat) : List Nat :=
  if n < 0x80 then [n]
  else if n < 0x800 then [0xC0 + n / 64, 0x80 + n % 64]
  else if n < 0x10000 then
    [0xE0 + n / 4096, 0x80 + n / 64 % 64, 0x80 + n % 64]
  else
    [0xF0 + n / 262144, 0x80 + n / 4096 % 64, 0x80 + n / 64 % 64,
      0x80 + n % 64]

/-! ## Server-sent-event line parsing
(ResearchAssistant.tsx, lines 700-715: per-chunk newline split, `data: `
prefix test, `JSON.parse` of the remainder with malformed lines skipped) -/

/-- JSON values. Numbers keep their raw token text: no arithmetic is
done on them here. -/
inductive Json where
  | jnull : Json
  | jbool : Bool → Json
  | jnum : Str → Json
  | jstr : Str → Json
  | jarr : List Json → Json
  | jobj : List (Str × Json) → Json
deriving Repr

/-- Skip JSON insignificant whitespace (space, tab, newline, carriage
return — the same set as `jsIsWs`). -/
def skipWs (s : Str) : Str := s.dropWhile jsIsWs

/-- Value of one hex digit. -/
def hexVal (c : Char) : Option Nat :=
  if '0' ≤ c ∧ c ≤ '9' then some (c.toNat - '0'.toNat)
  else if 'a' ≤ c ∧ c ≤ 'f' then some (c.toNat - 'a'.toNat + 10)
  else if 'A' ≤ c ∧ c ≤ 'F' then some (c.toNat - 'A'.toNat + 10)
  else none

/-- Parse exactly four hex digits. -/
def parseHex4 : Str → Option (Nat × Str)
  | a :: b :: c :: d :: r =>
      match hexVal a, hexVal b, hexVal c, hexVal d with
      | some x, some y, some z, some w =>
          some (((x * 16 + y) * 16 + z) * 16 + w, r)
      | _, _, _, _ => none
  | _ => none

/-- Parse the body of a JSON string literal (the opening quote already
consumed), returning the decoded text and the rest of the input. -/
def parseStringBody : Nat → Str → Str → Option (Str × Str)
  | 0, _, _ => none
  | _ + 1, [], _ => none
  | fuel + 1, c :: r, acc =>
      if c = '"' then some (acc.reverse, r)
      else if c = '\\' then
        match r with
        | [] => none
        | e :: r2 =>
            if e = '"' then parseStringBody fuel r2 ('"' :: acc)
            else if e = '\\' then parseStringBody fuel r2 ('\\' :: acc)
            else if e = '/' then parseStringBody fuel r2 ('/' :: acc)
            else if e = 'b' then parseStringBody fuel r2 ('\x08' :: acc)
            else if e = 'f' then parseStringBody fuel r2 ('\x0c' :: acc)
            else if e = 'n' then parseStringBody fuel r2 ('\n' :: acc)
            else if e = 'r' then parseStringBody fuel r2 ('\r' :: acc)
            else if e = 't' then parseStringBody fuel r2 ('\t' :: acc)
            else if e = 'u' then
              match parseHex4 r2 with
              | some (n, r3) => parseStringBody fuel r3 (Char.ofNat n :: acc)
              | none => none
            else none
      else if c.toNat < 0x20 then none
      else parseStringBody fuel r (c :: acc)

/-- One-or-more decimal digits. -/
def digits1 (s : Str) : Option (Str × Str) :=
  let ds := s.takeWhile Char.isDigit
  if ds = [] then none else some (ds, s.drop ds.length)

/-- Parse a JSON number token (maximal munch, leading zeros rejected),
keeping its raw text. -/
def parseNumber (s : Str) : Option (Json × Str) :=
  let (sign, s1) :=
    match s with
    | '-' :: r => ((['-'] : Str), r)
    | _ => ([], s)
  match digits1 s1 with
  | none => none
  | some (int, s2) =>
      if 2 ≤ int.length ∧ int.getD 0 ' ' = '0' then none
      else
        let (frac, s3) :=
          match s2 with
          | '.' :: r =>
              (match digits1 r with
               | some (ds, r2) => (('.' :: ds : Str), r2)
               | none => ([], s2))
          | _ => ([], s2)
        if frac = [] ∧ s2 ≠ s3 then none
        else
          match s3 with
          | e :: r =>
              if e = 'e' ∨ e = 'E' then
                let (es, r2) :=
                  match r with
                  | '+' :: r3 => ((['+'] : Str), r3)
                  | '-' :: r3 => ((['-'] : Str), r3)
                  | _ => ([], r)
                match digits1 r2 with
                | some (ds, r4) =>
                    some (Json.jnum (sign ++ int ++ frac ++ [e] ++ es ++ ds), r4)
                | none => none
              else some (Json.jnum (sign ++ int ++ frac), s3)
          | [] => some (Json.jnum (sign ++ int ++ frac), [])

mutual

/-- Parse one JSON value; returns the value and the unconsumed rest. -/
def parseValue : Nat → Str → Option (Json × Str)
  | 0, _ => none
  | fuel + 1, s =>
      match s with
      | [] => none
      | c :: r =>
          if c = '{' then parseObjFields fuel (skipWs r) []
          else if c = '[' then parseArrElems fuel (skipWs r) []
          else if c = '"' then
            (parseStringBody (r.length + 1) r []).map
              (fun p => (Json.jstr p.1, p.2))
          else if c = 't' then
            if (str "rue").isPrefixOf r then some (Json.jbool true, r.drop 3)
            else none
          else if c = 'f' then
            if (str "alse").isPrefixOf r then some (Json.jbool false, r.drop 4)
            else none
          else if c = 'n' then
            if (str "ull").isPrefixOf r then some (Json.jnull, r.drop 3)
            else none
          else if c = '-' ∨ c.isDigit then parseNumber (c :: r)
          else none

/-- Parse the members of an object, the opening brace and following
whitespace already consumed. -/
def parseObjFields : Nat → Str → List (Str × Json) → Option (Json × Str)
  | 0, _, _ => none
  | fuel + 1, s, acc =>
      match s with
      | '}' :: r => if acc.isEmpty then some (Json.jobj [], r) else none
      | '"' :: r =>
          match parseStringBody (r.length + 1) r [] with
          | none => none
          | some (key, r2) =>
              match skipWs r2 with
              | ':' :: r3 =>
                  match parseValue fuel (skipWs r3) with
                  | none => none
                  | some (v, r4) =>
                      match skipWs r4 with
                      | ',' :: r5 =>
                          parseObjFields fuel (skipWs r5) (acc ++ [(key, v)])
                      | '}' :: r5 => some (Json.jobj (acc ++ [(key, v)]), r5)
                      | _ => none
              | _ => none
      | _ => none

/-- Parse the elements of an array, the opening bracket and following
whitespace already consumed. -/
def parseArrElems : Nat → Str → List Json → Option (Json × Str)
  | 0, _, _ => none
  | fuel + 1, s, acc =>
      match s with
      | ']' :: r => if acc.isEmpty then some (Json.jarr [], r) else none
      | _ =>
          match parseValue fuel s with
          | none => none
          | some (v, r) =>
              match skipWs r with
              | ',' :: r2 => parseArrElems fuel (skipWs r2) (acc ++ [v])
              | ']' :: r2 => some (Json.jarr (acc ++ [v]), r2)
              | _ => none

end

/-- `JSON.parse`: whitespace-tolerant parse of one complete JSON text;
`none` where JS throws. -/
def jsonParse (s : Str) : Option Json :=
  match parseValue (2 * s.length + 2) (skipWs s) with
  | some (v, r) => if skipWs r = [] then some v else none
  | none => none

/-- The fixed `data: ` tag of a server-sent-event line. -/
def DATA_TAG : Str := str "data: "

/-- Processing of one line of a decoded chunk (lines 708-711): the line
must pass the `data: ` prefix test and its remainder must parse as JSON;
otherwise the line yields nothing. -/
def processLine (line : Str) : Option Json :=
  if DATA_TAG.isPrefixOf line then jsonParse (line.drop 6) else none

/-- Processing of one decoded chunk (lines 704-707): split the chunk on
newlines and process each line independently. -/
def processChunk (chunk : Str) : List Json :=
  (splitLines chunk).filterMap processLine

/-- Processing of the whole stream, chunk by chunk: each chunk is split
on its own, with no carry-over of a partial trailing line to the next
chunk (the loop keeps no such buffer). -/
def streamEvents (chunks : List Str) : List Json :=
  (chunks.map processChunk).flatten

/-- Does `pat` occur at most once in `s`?  (No further occurrence after
the first one.) -/
def occursAtMostOnce (pat s : Str) : Bool :=
  match listIndexOf pat s with
  | none => true
  | some i => (listIndexOfFrom pat s (i + 1)).isNone

/-- Invariant of the stream loop: the callback fired exactly as often as
the `codeApplied` guard records (once when set, never otherwise), and as
long as the guard is unset, the current accumulated content does not
satisfy the fire condition. -/
def applyInv (cfg : StreamCfg) (s : StreamLoopState) : Prop :=
  s.applyCalls.length = (if s.codeApplied then 1 else 0) ∧
  (s.codeApplied = false →
    shouldApplyCode cfg false
      (processApplyCodeBlocksForDisplay s.accumulatedContent cfg.agentMode) = false)

/-- A pure `content` stream event. -/
def contentEvent (d : Str) : SEvent := { content := some d }

/-- Invariant of the loop during a content-only stream: the prior
messages are untouched, the placeholder is still the last entry, and its
content field always carries the sanitized display of the accumulated
content. -/
def contentInv (cfg : StreamCfg) (prior : List Msg) (s : StreamLoopState) :
    Prop :=
  ∃ m : Msg, s.messages = prior ++ [m] ∧ m.id = cfg.aiMessageId ∧
    m.content = (processApplyCodeBlocksForDisplay s.accumulatedContent
      cfg.agentMode).display

/-- The per-request configuration with agent mode on and an apply
callback registered. -/
def agentCfg (aiId snap : Str) : StreamCfg :=
  { agentMode := true, hasApplyCallback := true, aiMessageId := aiId,
    previousCodeSnapshot := snap }

/-- The per-request configuration with agent mode off and no apply
callback, for a request whose placeholder message got id "9". -/
def plainCfg : StreamCfg :=
  { agentMode := false, hasApplyCallback := false, aiMessageId := str "9",
    previousCodeSnapshot := [] }

/-! ## Substring machinery for `listIndexOf` -/

theorem listIndexOf_isSome_iff {pat : Str} :
    ∀ {s : Str}, (listIndexOf pat s).isSome ↔ pat <:+: s := by
  intro s
  induction s with
  | nil =>
      by_cases h : pat.isPrefixOf ([] : Str)
      · simp only [listIndexOf, if_pos h, Option.isSome_some, true_iff]
        exact (List.isPrefixOf_iff_prefix.mp h).isInfix
      · simp only [listIndexOf, if_neg h, Option.isSome_none, List.infix_nil,
          Bool.false_eq_true, false_iff]
        rintro rfl
        exact h (List.isPrefixOf_iff_prefix.mpr List.nil_prefix)
  | cons c t ih =>
      by_cases h : pat.isPrefixOf (c :: t)
      · simp only [listIndexOf, if_pos h, Option.isSome_some, true_iff]
        exact (List.isPrefixOf_iff_prefix.mp h).isInfix
      · simp only [listIndexOf, if_neg h, Option.isSome_map']
        rw [ih, List.infix_cons_iff]
        constructor
        · exact Or.inr
        · rintro (hp | hi)
          · exact absurd (List.isPrefixOf_iff_prefix.mpr hp) h
          · exact hi

theorem listIndexOf_eq_none_iff {pat s : Str} :
    listIndexOf pat s = none ↔ ¬ pat <:+: s := by
  rw [← @listIndexOf_isSome_iff pat s, Option.isSome_iff_ne_none]
  tauto

theorem not_infix_take_of_listIndexOf {pat : Str} (hne : pat ≠ []) :
    ∀ {s : Str} {i : Nat}, listIndexOf pat s = some i → ¬ pat <:+: s.take i := by
  intro s
  induction s with
  | nil =>
      intro i h
      simp [listIndexOf] at h
      exact absurd h.1 hne
  | cons c t ih =>
      intro i h
      by_cases hp : pat.isPrefixOf (c :: t)
      · simp only [listIndexOf, if_pos hp, Option.some.injEq] at h
        subst h
        simpa [List.infix_nil] using hne
      · simp only [listIndexOf, if_neg hp, Option.map_eq_some'] at h
        obtain ⟨j, hj, rfl⟩ := h
        rw [List.take_succ_cons]
        rw [List.infix_cons_iff]
        rintro (hpre | hinf)
        · refine hp (List.isPrefixOf_iff_prefix.mpr (hpre.trans ?_))
          exact (List.cons_prefix_cons).mpr ⟨rfl, List.take_prefix j t⟩
        · exact ih hj hinf

theorem trimEnd_prefix_self (s : Str) : trimEnd s <+: s := by
  have h := List.dropWhile_suffix (l := s.reverse) jsIsWs
  have := List.reverse_prefix.mpr h
  simpa [trimEnd] using this

theorem trimStart_suffix (s : Str) : trimStart s <:+ s :=
  List.dropWhile_suffix jsIsWs

/-- A prefix of `a ++ '\n' :: b` that avoids the newline character is a
prefix of `a`. -/
theorem prefix_of_append_newline {p : Str} (hnl : '\n' ∉ p) :
    ∀ {a b : Str}, p <+: a ++ '\n' :: b → p <+: a := by
  intro a
  induction a generalizing p with
  | nil =>
      intro b h
      match p, h with
      | [], _ => exact List.nil_prefix
      | c :: p', h =>
          obtain ⟨rfl, -⟩ := List.cons_prefix_cons.mp h
          exact absurd (List.mem_cons_self _ _) hnl
  | cons x a' ih =>
      intro b h
      match p, h with
      | [], _ => exact List.nil_prefix
      | c :: p', h =>
          obtain ⟨rfl, hp'⟩ := List.cons_prefix_cons.mp h
          have : '\n' ∉ p' := fun hmem => hnl (List.mem_cons_of_mem _ hmem)
          exact List.cons_prefix_cons.mpr ⟨rfl, ih this hp'⟩

/-- A nonempty, newline-free pattern occurring in neither `a` nor `b`
does not occur in `a ++ '\n' :: b`. -/
theorem not_infix_append_newline {pat : Str} (hne : pat ≠ [])
    (hnl : '\n' ∉ pat) :
    ∀ {a b : Str}, ¬ pat <:+: a → ¬ pat <:+: b →
      ¬ pat <:+: a ++ '\n' :: b := by
  intro a
  induction a with
  | nil =>
      intro b _ hb h
      rw [List.nil_append, List.infix_cons_iff] at h
      rcases h with hpre | hinf
      · match pat, hpre with
        | [], _ => exact hne rfl
        | c :: p', hpre =>
            obtain ⟨rfl, -⟩ := List.cons_prefix_cons.mp hpre
            exact hnl (List.mem_cons_self _ _)
      · exact hb hinf
  | cons x a' ih =>
      intro b ha hb h
      rw [List.cons_append, List.infix_cons_iff] at h
      rcases h with hpre | hinf
      · match pat, hpre with
        | [], _ => exact hne rfl
        | c :: p', hpre =>
            obtain ⟨rfl, hp'⟩ := List.cons_prefix_cons.mp hpre
            have hnl' : '\n' ∉ p' := fun hmem => hnl (List.mem_cons_of_mem _ hmem)
            have : p' <+: a' := prefix_of_append_newline hnl' hp'
            exact ha (List.cons_prefix_cons.mpr ⟨rfl, this⟩).isInfix
      · have ha' : ¬ pat <:+: a' := fun hx =>
          ha (List.infix_cons_iff.mpr (Or.inr hx))
        exact ih ha' hb hinf

/-- A nonempty, newline-free pattern occurring in none of the parts does
not occur in their blank-line join. -/
theorem not_infix_joinBlankLine {pat : Str} (hne : pat ≠ [])
    (hnl : '\n' ∉ pat) :
    ∀ parts : List Str, (∀ p ∈ parts, ¬ pat <:+: p) →
      ¬ pat <:+: joinBlankLine parts := by
  have key : ∀ parts : List Str, (∀ p ∈ parts, ¬ pat <:+: p) →
      ¬ pat <:+: List.intercalate (str "\n\n") parts := by
    intro parts
    induction parts with
    | nil =>
        intro _ h
        rw [show List.intercalate (str "\n\n") [] = [] by simp [List.intercalate]] at h
        exact hne (List.infix_nil.mp h)
    | cons x r ih =>
        intro hmem h
        match r with
        | [] =>
            rw [show List.intercalate (str "\n\n") [x] = x by
              simp [List.intercalate]] at h
            exact hmem x (List.mem_cons_self _ _) h
        | y :: r' =>
            rw [show List.intercalate (str "\n\n") (x :: y :: r') =
                x ++ str "\n\n" ++ List.intercalate (str "\n\n") (y :: r') by
              simp [List.intercalate]] at h
            have hx : ¬ pat <:+: x := hmem x (List.mem_cons_self _ _)
            have hr : ¬ pat <:+: List.intercalate (str "\n\n") (y :: r') :=
              ih (fun p hp => hmem p (List.mem_cons_of_mem _ hp))
            have hmid : ¬ pat <:+: '\n' :: List.intercalate (str "\n\n") (y :: r') := by
              have := not_infix_append_newline hne hnl (a := []) (b := _)
                (by simpa [List.infix_nil] using hne) hr
              simpa using this
            have hfin := not_infix_append_newline hne hnl (a := x)
              (b := '\n' :: List.intercalate (str "\n\n") (y :: r')) hx hmid
            apply hfin
            have hsep : str "\n\n" = ['\n', '\n'] := rfl
            simpa [hsep, List.append_assoc] using h
  intro parts hmem
  refine key _ (fun p hp => hmem p ?_)
  exact List.mem_of_mem_filter hp

theorem start_ne_nil : APPLY_CODE_START ≠ [] := by decide

theorem nl_not_mem_start : '\n' ∉ APPLY_CODE_START := by decide

theorem start_not_infix_applying :
    ¬ APPLY_CODE_START <:+: APPLYING_CODE_MARKER :=
  listIndexOf_eq_none_iff.mp (by decide)

theorem start_not_infix_applied :
    ¬ APPLY_CODE_START <:+: APPLIED_CODE_MARKER :=
  listIndexOf_eq_none_iff.mp (by decide)

/-- Core of the idempotence analysis: when the start sentinel occurs at
most once in the raw text, the display output of the extractor contains
no start sentinel at all. -/
theorem display_no_start {raw : Str} (f : Bool)
    (hOnce : occursAtMostOnce APPLY_CODE_START raw = true) :
    ¬ APPLY_CODE_START <:+: (processApplyCodeBlocksForDisplay raw f).display := by
  cases hstart : listIndexOf APPLY_CODE_START raw with
  | none =>
      simp only [processApplyCodeBlocksForDisplay, hstart]
      exact listIndexOf_eq_none_iff.mp hstart
  | some i =>
      have hbefore : ¬ APPLY_CODE_START <:+: trimEnd (raw.take i) := by
        intro hcon
        exact not_infix_take_of_listIndexOf start_ne_nil hstart
          (hcon.trans (trimEnd_prefix_self _).isInfix)
      cases hend : listIndexOfFrom APPLY_CODE_END raw (i + APPLY_CODE_START.length) with
      | none =>
          simp only [processApplyCodeBlocksForDisplay, hstart, hend]
          cases f with
          | false => simpa using hbefore
          | true =>
              simp only [if_true]
              refine not_infix_joinBlankLine start_ne_nil nl_not_mem_start _ ?_
              intro p hp
              simp only [List.mem_cons, List.not_mem_nil, or_false] at hp
              rcases hp with rfl | rfl
              · exact hbefore
              · exact start_not_infix_applying
      | some e =>
          have hOnce' : ¬ APPLY_CODE_START <:+: raw.drop (i + 1) := by
            have h1 : occursAtMostOnce APPLY_CODE_START raw =
                (listIndexOfFrom APPLY_CODE_START raw (i + 1)).isNone := by
              simp only [occursAtMostOnce, hstart]
            rw [h1] at hOnce
            simp only [listIndexOfFrom, Option.isNone_iff_eq_none,
              Option.map_eq_none'] at hOnce
            exact listIndexOf_eq_none_iff.mp hOnce
          have hge : i + APPLY_CODE_START.length ≤ e := by
            simp only [listIndexOfFrom] at hend
            rcases Option.map_eq_some'.mp hend with ⟨j, -, rfl⟩
            omega
          have hafter :
              ¬ APPLY_CODE_START <:+: trimStart (raw.drop (e + APPLY_CODE_END.length)) := by
            intro hcon
            have hL : 1 ≤ APPLY_CODE_START.length := by decide
            have hdrop : raw.drop (e + APPLY_CODE_END.length) =
                (raw.drop (i + 1)).drop ((e + APPLY_CODE_END.length) - (i + 1)) := by
              rw [List.drop_drop]
              congr 1
              omega
            refine hOnce' (hcon.trans ?_)
            refine List.IsSuffix.isInfix ?_
            refine (trimStart_suffix _).trans ?_
            rw [hdrop]
            exact List.drop_suffix _ _
          simp only [processApplyCodeBlocksForDisplay, hstart, hend]
          cases f with
          | false =>
              simp only [Bool.false_eq_true, if_false]
              refine not_infix_joinBlankLine start_ne_nil nl_not_mem_start _ ?_
              intro p hp
              simp only [List.mem_cons, List.not_mem_nil, or_false] at hp
              rcases hp with rfl | rfl
              · exact hbefore
              · exact hafter
          | true =>
              simp only [if_true]
              refine not_infix_joinBlankLine start_ne_nil nl_not_mem_start _ ?_
              intro p hp
              simp only [List.mem_cons, List.not_mem_nil, or_false] at hp
              rcases hp with rfl | rfl | rfl
              · exact hbefore
              · exact start_not_infix_applied
              · exact hafter

/-- Reprocessing text that contains no start sentinel is a no-op with no
extraction. -/
theorem process_of_no_start {d : Str} (f : Bool)
    (h : listIndexOf APPLY_CODE_START d = none) :
    processApplyCodeBlocksForDisplay d f =
      { display := d, extractedCode := none, hasCompleteBlock := false } := by
  simp only [processApplyCodeBlocksForDisplay, h]

/-! ## Line diff lemmas -/

theorem splitLines_ne_nil (s : Str) : splitLines s ≠ [] := by
  cases s with
  | nil => simp [splitLines]
  | cons c t =>
      by_cases h : c = '\n'
      · simp [splitLines, h]
      · simp only [splitLines, if_neg h]
        cases splitLines t <;> simp

theorem splitLines_append_newline (a : Str) :
    splitLines (a ++ ['\n']) = splitLines a ++ [[]] := by
  induction a with
  | nil => rfl
  | cons c t ih =>
      by_cases h : c = '\n'
      · subst h
        simp [splitLines, ih]
      · simp only [List.cons_append, splitLines, if_neg h, List.append_eq]
        cases hs : splitLines t with
        | nil => exact absurd hs (splitLines_ne_nil t)
        | cons hh tt =>
            rw [ih, hs]
            simp

/-- Membership in the changed-line set, unfolded. -/
theorem mem_computeChangedLines {o n : Str} {k : Nat} :
    k ∈ computeChangedLines o n ↔
      1 ≤ k ∧ k ≤ max (splitLines o).length (splitLines n).length ∧
        lineAt o (k - 1) ≠ lineAt n (k - 1) := by
  simp only [computeChangedLines, Finset.mem_image, Finset.mem_filter,
    Finset.mem_range]
  constructor
  · rintro ⟨i, ⟨hlt, hne⟩, rfl⟩
    refine ⟨by omega, by omega, ?_⟩
    simpa using hne
  · rintro ⟨h1, h2, hne⟩
    exact ⟨k - 1, ⟨by omega, hne⟩, by omega⟩

theorem computeChangedLines_self (a : Str) : computeChangedLines a a = ∅ := by
  simp [computeChangedLines]

theorem getD_append_single {L : List Str} {i : Nat} (h : i ≤ L.length) :
    (L ++ [([] : Str)]).getD i [] = L.getD i [] := by
  rcases Nat.lt_or_ge i L.length with hlt | hge
  · simp [List.getD, List.getElem?_append_left hlt]
  · have hi : i = L.length := by omega
    subst hi
    simp [List.getD, List.getElem?_append_right (Nat.le_refl _),
      List.getElem?_eq_none (Nat.le_refl _)]

/-- Appending a trailing newline is invisible to the diff. -/
theorem computeChangedLines_append_newline (a : Str) :
    computeChangedLines a (a ++ ['\n']) = ∅ := by
  rw [Finset.eq_empty_iff_forall_not_mem]
  intro k hk
  rw [mem_computeChangedLines] at hk
  rcases hk with ⟨h1, h2, hne⟩
  apply hne
  rw [lineAt, lineAt, splitLines_append_newline]
  have hlen : (splitLines a ++ [([] : Str)]).length = (splitLines a).length + 1 := by
    simp
  rw [splitLines_append_newline, hlen] at h2
  have hle : k - 1 ≤ (splitLines a).length := by omega
  exact (getD_append_single hle).symm

/-! ## The one-shot apply-callback invariant -/

theorem applyInv_init (prior : List Msg) (cfg : StreamCfg) :
    applyInv cfg (initState prior cfg) := by
  constructor
  · rfl
  · intro _
    have h : listIndexOf APPLY_CODE_START ([] : Str) = none := by decide
    have hp : processApplyCodeBlocksForDisplay
        (initState prior cfg).accumulatedContent cfg.agentMode =
        { display := [], extractedCode := none, hasCompleteBlock := false } :=
      process_of_no_start _ h
    rw [hp]
    simp [shouldApplyCode, strTruthy]

theorem applyInv_contentStep (cfg : StreamCfg) (s : StreamLoopState) (d : Str)
    (h : applyInv cfg s) : applyInv cfg (contentStep cfg s d) := by
  obtain ⟨h1, h2⟩ := h
  have hacc : (contentStep cfg s d).accumulatedContent =
      s.accumulatedContent ++ d := rfl
  have happ : (contentStep cfg s d).codeApplied =
      (s.codeApplied || shouldApplyCode cfg s.codeApplied
        (processApplyCodeBlocksForDisplay (s.accumulatedContent ++ d) cfg.agentMode)) := rfl
  have hcalls : (contentStep cfg s d).applyCalls =
      s.applyCalls ++
        (if shouldApplyCode cfg s.codeApplied
            (processApplyCodeBlocksForDisplay (s.accumulatedContent ++ d) cfg.agentMode) = true
          then [(processApplyCodeBlocksForDisplay (s.accumulatedContent ++ d)
                  cfg.agentMode).extractedCode.getD []]
          else []) := rfl
  constructor
  · rw [hcalls, List.length_append, happ, h1]
    cases hca : s.codeApplied with
    | true => simp [hca, shouldApplyCode]
    | false =>
        cases hsa : shouldApplyCode cfg false
            (processApplyCodeBlocksForDisplay (s.accumulatedContent ++ d) cfg.agentMode) with
        | true => simp [hca, hsa]
        | false => simp [hca, hsa]
  · intro hfalse
    rw [happ] at hfalse
    have hca : s.codeApplied = false := by
      cases hq : s.codeApplied
      · rfl
      · rw [hq] at hfalse; simp at hfalse
    rw [hca, Bool.false_or] at hfalse
    rw [hacc]
    exact hfalse

theorem applyInv_doneStep (cfg : StreamCfg) (s : StreamLoopState)
    (h : applyInv cfg s) : applyInv cfg (doneStep cfg s) := by
  obtain ⟨h1, h2⟩ := h
  have hacc : (doneStep cfg s).accumulatedContent = s.accumulatedContent := rfl
  have happ : (doneStep cfg s).codeApplied =
      (s.codeApplied || shouldApplyCode cfg s.codeApplied
        (processApplyCodeBlocksForDisplay s.accumulatedContent cfg.agentMode)) := rfl
  have hcalls : (doneStep cfg s).applyCalls =
      s.applyCalls ++
        (if shouldApplyCode cfg s.codeApplied
            (processApplyCodeBlocksForDisplay s.accumulatedContent cfg.agentMode) = true
          then [(processApplyCodeBlocksForDisplay s.accumulatedContent
                  cfg.agentMode).extractedCode.getD []]
          else []) := rfl
  constructor
  · rw [hcalls, List.length_append, happ, h1]
    cases hca : s.codeApplied with
    | true => simp [hca, shouldApplyCode]
    | false =>
        cases hsa : shouldApplyCode cfg false
            (processApplyCodeBlocksForDisplay s.accumulatedContent cfg.agentMode) with
        | true => simp [hca, hsa]
        | false => simp [hca, hsa]
  · intro hfalse
    rw [happ] at hfalse
    have hca : s.codeApplied = false := by
      cases hq : s.codeApplied
      · rfl
      · rw [hq] at hfalse; simp at hfalse
    rw [hca, Bool.false_or] at hfalse
    rw [hacc]
    exact hfalse

theorem applyInv_thoughtStep (cfg : StreamCfg) (s : StreamLoopState) (t : Str)
    (h : applyInv cfg s) : applyInv cfg (thoughtStep cfg s t) :=
  ⟨h.1, h.2⟩

theorem applyInv_stepEvent (cfg : StreamCfg) (s : StreamLoopState) (e : SEvent)
    (h : applyInv cfg s) : applyInv cfg (stepEvent cfg s e) := by
  cases he : strTruthy e.error with
  | true =>
      simp only [stepEvent, he, if_true]
      exact h
  | false =>
      cases ht : strTruthy e.thought with
      | false =>
          cases hc : strTruthy e.content with
          | false =>
              cases hd : e.done with
              | false =>
                  simp only [stepEvent, he, ht, hd, hc, Bool.false_eq_true, if_false]
                  exact h
              | true =>
                  simp only [stepEvent, he, ht, hd, hc, Bool.false_eq_true,
                    if_false, if_true]
                  exact applyInv_doneStep _ _ h
          | true =>
              cases hd : e.done with
              | false =>
                  simp only [stepEvent, he, ht, hd, hc, Bool.false_eq_true,
                    if_false, if_true]
                  exact applyInv_contentStep _ _ _ h
              | true =>
                  simp only [stepEvent, he, ht, hd, hc, Bool.false_eq_true,
                    if_false, if_true]
                  exact applyInv_doneStep _ _ (applyInv_contentStep _ _ _ h)
      | true =>
          cases hc : strTruthy e.content with
          | false =>
              cases hd : e.done with
              | false =>
                  simp only [stepEvent, he, ht, hd, hc, Bool.false_eq_true,
                    if_false, if_true]
                  exact applyInv_thoughtStep _ _ _ h
              | true =>
                  simp only [stepEvent, he, ht, hd, hc, Bool.false_eq_true,
                    if_false, if_true]
                  exact applyInv_doneStep _ _ (applyInv_thoughtStep _ _ _ h)
          | true =>
              cases hd : e.done with
              | false =>
                  simp only [stepEvent, he, ht, hd, hc, Bool.false_eq_true,
                    if_false, if_true]
                  exact applyInv_contentStep _ _ _ (applyInv_thoughtStep _ _ _ h)
              | true =>
                  simp only [stepEvent, he, ht, hd, hc, Bool.false_eq_true,
                    if_false, if_true]
                  exact applyInv_doneStep _ _
                    (applyInv_contentStep _ _ _ (applyInv_thoughtStep _ _ _ h))

theorem applyInv_runChunk (cfg : StreamCfg) :
    ∀ (events : List SEvent) (s : StreamLoopState),
      applyInv cfg s → applyInv cfg (runChunk cfg s events) := by
  intro events
  induction events with
  | nil => intro s h; exact h
  | cons e rest ih =>
      intro s h
      rw [runChunk]
      split
      · exact applyInv_stepEvent _ _ _ h
      · exact ih _ (applyInv_stepEvent _ _ _ h)

theorem applyInv_runStream (cfg : StreamCfg) :
    ∀ (chunks : List (List SEvent)) (s : StreamLoopState),
      applyInv cfg s → applyInv cfg (runStream cfg s chunks) := by
  intro chunks
  induction chunks with
  | nil => intro s h; exact h
  | cons ch rest ih =>
      intro s h
      exact ih _ (applyInv_runChunk _ _ _ h)

/-! ## Content accumulation and the in-flight message's content -/

theorem contentInv_init (prior : List Msg) (cfg : StreamCfg) :
    contentInv cfg prior (initState prior cfg) := by
  refine ⟨_, rfl, rfl, ?_⟩
  rw [show (initState prior cfg).accumulatedContent = [] from rfl,
    process_of_no_start _ (by decide)]

theorem contentInv_contentStep (cfg : StreamCfg) (prior : List Msg)
    (hFresh : ∀ m ∈ prior, m.id ≠ cfg.aiMessageId)
    (s : StreamLoopState) (d : Str) (h : contentInv cfg prior s) :
    contentInv cfg prior (contentStep cfg s d) := by
  obtain ⟨m, hms, hid, -⟩ := h
  refine ⟨updateAiMessage cfg
      (processApplyCodeBlocksForDisplay (s.accumulatedContent ++ d) cfg.agentMode)
      (shouldApplyCode cfg s.codeApplied
        (processApplyCodeBlocksForDisplay (s.accumulatedContent ++ d) cfg.agentMode))
      m, ?_, ?_, ?_⟩
  · have hmm : (contentStep cfg s d).messages =
        (prior ++ [m]).map (updateAiMessage cfg
          (processApplyCodeBlocksForDisplay (s.accumulatedContent ++ d) cfg.agentMode)
          (shouldApplyCode cfg s.codeApplied
            (processApplyCodeBlocksForDisplay (s.accumulatedContent ++ d)
              cfg.agentMode))) := by
      rw [← hms]; rfl
    rw [hmm, List.map_append]
    congr 1
    · conv_rhs => rw [← List.map_id prior]
      refine List.map_congr_left ?_
      intro x hx
      have : x.id ≠ cfg.aiMessageId := hFresh x hx
      simp [updateAiMessage, this]
  · rw [updateAiMessage, if_pos hid]
    split <;> exact hid
  · rw [updateAiMessage, if_pos hid]
    have hacc : (contentStep cfg s d).accumulatedContent =
        s.accumulatedContent ++ d := rfl
    rw [hacc]
    split <;> rfl

theorem stepEvent_contentEvent (cfg : StreamCfg) (s : StreamLoopState)
    (d : Str) :
    stepEvent cfg s (contentEvent d) =
      (if d = [] then s else contentStep cfg s d) := by
  by_cases hde : d = []
  · simp [stepEvent, contentEvent, strTruthy, hde]
  · simp [stepEvent, contentEvent, strTruthy, hde]

theorem contentRun (cfg : StreamCfg) (prior : List Msg)
    (hFresh : ∀ m ∈ prior, m.id ≠ cfg.aiMessageId) :
    ∀ (deltas : List Str) (s : StreamLoopState), contentInv cfg prior s →
      contentInv cfg prior (runChunk cfg s (deltas.map contentEvent)) ∧
      (runChunk cfg s (deltas.map contentEvent)).accumulatedContent =
        s.accumulatedContent ++ deltas.flatten := by
  intro deltas
  induction deltas with
  | nil =>
      intro s h
      exact ⟨h, by simp [runChunk]⟩
  | cons d rest ih =>
      intro s h
      have hbreak : eventBreaks (contentEvent d) = false := rfl
      rw [List.map_cons, runChunk, hbreak]
      simp only [Bool.false_eq_true, if_false]
      have hstep := stepEvent_contentEvent cfg s d
      by_cases hde : d = []
      · rw [hstep, if_pos hde]
        obtain ⟨h1, h2⟩ := ih s h
        refine ⟨h1, ?_⟩
        rw [h2, hde]
        simp
      · rw [hstep, if_neg hde]
        obtain ⟨h1, h2⟩ := ih (contentStep cfg s d)
          (contentInv_contentStep cfg prior hFresh s d h)
        refine ⟨h1, ?_⟩
        rw [h2]
        have : (contentStep cfg s d).accumulatedContent =
            s.accumulatedContent ++ d := rfl
        rw [this]
        simp

/-! ## UTF-8 decode correctness -/

theorem utf8DecodeLoop_encode {n : Nat} (h : validScalar n) :
    utf8DecodeLoop (utf8Encode n) = ([n], []) := by
  obtain ⟨hlt, hsur⟩ := h
  by_cases h1 : n < 0x80
  · rw [utf8Encode, if_pos h1]
    have hb : utf8SeqLen n = some 1 := by rw [utf8SeqLen, if_pos h1]
    have hval : utf8SeqVal n [] = n := by simp [utf8SeqVal]
    have hok : utf8SeqOk n [] = true := by
      simp [utf8SeqOk, hval, utf8MinVal, validScalar]
      omega
    simp [utf8DecodeLoop, utf8DecodeGo, hb, hok, hval]
  · by_cases h2 : n < 0x800
    · rw [utf8Encode, if_neg h1, if_pos h2]
      have hb : utf8SeqLen (0xC0 + n / 64) = some 2 := by
        rw [utf8SeqLen, if_neg (by omega), if_pos (by omega)]
      have hval : utf8SeqVal (0xC0 + n / 64) [0x80 + n % 64] = n := by
        simp [utf8SeqVal]
        omega
      have hok : utf8SeqOk (0xC0 + n / 64) [0x80 + n % 64] = true := by
        simp [utf8SeqOk, hval, utf8MinVal, validScalar, isCont]
        omega
      simp [utf8DecodeLoop, utf8DecodeGo, hb, hok, hval]
    · by_cases h3 : n < 0x10000
      · rw [utf8Encode, if_neg h1, if_neg h2, if_pos h3]
        have hb : utf8SeqLen (0xE0 + n / 4096) = some 3 := by
          rw [utf8SeqLen, if_neg (by omega), if_neg (by omega), if_pos (by omega)]
        have hval : utf8SeqVal (0xE0 + n / 4096)
            [0x80 + n / 64 % 64, 0x80 + n % 64] = n := by
          simp [utf8SeqVal]
          omega
        have hok : utf8SeqOk (0xE0 + n / 4096)
            [0x80 + n / 64 % 64, 0x80 + n % 64] = true := by
          simp [utf8SeqOk, hval, utf8MinVal, validScalar, isCont]
          omega
        simp [utf8DecodeLoop, utf8DecodeGo, hb, hok, hval]
      · rw [utf8Encode, if_neg h1, if_neg h2, if_neg h3]
        have hb : utf8SeqLen (0xF0 + n / 262144) = some 4 := by
          rw [utf8SeqLen, if_neg (by omega), if_neg (by omega),
            if_neg (by omega), if_pos (by omega)]
        have hval : utf8SeqVal (0xF0 + n / 262144)
            [0x80 + n / 4096 % 64, 0x80 + n / 64 % 64, 0x80 + n % 64] = n := by
          simp [utf8SeqVal]
          omega
        have hok : utf8SeqOk (0xF0 + n / 262144)
            [0x80 + n / 4096 % 64, 0x80 + n / 64 % 64, 0x80 + n % 64] = true := by
          simp [utf8SeqOk, hval, utf8MinVal, validScalar, isCont]
          omega
        simp [utf8DecodeLoop, utf8DecodeGo, hb, hok, hval]

theorem utf8DecodeLoop_take {n : Nat} (h : validScalar n) {k : Nat}
    (hk : k < (utf8Encode n).length) :
    utf8DecodeLoop ((utf8Encode n).take k) = ([], (utf8Encode n).take k) := by
  obtain ⟨hlt, hsur⟩ := h
  by_cases h1 : n < 0x80
  · rw [utf8Encode, if_pos h1] at hk ⊢
    simp only [List.length_cons, List.length_nil] at hk
    interval_cases k
    · simp [utf8DecodeLoop, utf8DecodeGo]
  · by_cases h2 : n < 0x800
    · rw [utf8Encode, if_neg h1, if_pos h2] at hk ⊢
      have hb : utf8SeqLen (0xC0 + n / 64) = some 2 := by
        rw [utf8SeqLen, if_neg (by omega), if_pos (by omega)]
      simp only [List.length_cons, List.length_nil] at hk
      interval_cases k
      · simp [utf8DecodeLoop, utf8DecodeGo]
      · simp [utf8DecodeLoop, utf8DecodeGo, hb]
    · by_cases h3 : n < 0x10000
      · rw [utf8Encode, if_neg h1, if_neg h2, if_pos h3] at hk ⊢
        have hb : utf8SeqLen (0xE0 + n / 4096) = some 3 := by
          rw [utf8SeqLen, if_neg (by omega), if_neg (by omega), if_pos (by omega)]
        simp only [List.length_cons, List.length_nil] at hk
        interval_cases k
        · simp [utf8DecodeLoop, utf8DecodeGo]
        · simp [utf8DecodeLoop, utf8DecodeGo, hb]
        · simp [utf8DecodeLoop, utf8DecodeGo, hb]
      · rw [utf8Encode, if_neg h1, if_neg h2, if_neg h3] at hk ⊢
        have hb : utf8SeqLen (0xF0 + n / 262144) = some 4 := by
          rw [utf8SeqLen, if_neg (by omega), if_neg (by omega),
            if_neg (by omega), if_pos (by omega)]
        simp only [List.length_cons, List.length_nil] at hk
        interval_cases k
        · simp [utf8DecodeLoop, utf8DecodeGo]
        · simp [utf8DecodeLoop, utf8DecodeGo, hb]
        · simp [utf8DecodeLoop, utf8DecodeGo, hb]
        · simp [utf8DecodeLoop, utf8DecodeGo, hb]

/-- Splitting the UTF-8 encoding of any valid scalar value at any point
and feeding the two chunks through the streaming decoder yields exactly
that scalar value, with an empty carry-over. -/
theorem textDecoderRun_split {n : Nat} (h : validScalar n) (k : Nat) :
    textDecoderRun [(utf8Encode n).take k, (utf8Encode n).drop k] = ([n], []) := by
  by_cases hk : k < (utf8Encode n).length
  · simp only [textDecoderRun, List.foldl, List.nil_append,
      utf8DecodeLoop_take h hk]
    rw [List.take_append_drop, utf8DecodeLoop_encode h]
  · have htake : (utf8Encode n).take k = utf8Encode n :=
      List.take_of_length_le (by omega)
    have hdrop : (utf8Encode n).drop k = [] :=
      List.drop_eq_nil_of_le (by omega)
    rw [htake, hdrop]
    simp only [textDecoderRun, List.foldl, List.nil_append,
      utf8DecodeLoop_encode h]
    simp [utf8DecodeLoop, utf8DecodeGo]

theorem hasComplete_of_extracted {raw : Str} {f : Bool} {c : Str}
    (h : (processApplyCodeBlocksForDisplay raw f).extractedCode = some c) :
    (processApplyCodeBlocksForDisplay raw f).hasCompleteBlock = true := by
  cases h1 : listIndexOf APPLY_CODE_START raw with
  | none =>
      rw [process_of_no_start _ h1] at h
      simp at h
  | some i =>
      cases h2 : listIndexOfFrom APPLY_CODE_END raw (i + APPLY_CODE_START.length) with
      | none => simp [processApplyCodeBlocksForDisplay, h1, h2] at h
      | some e => simp [processApplyCodeBlocksForDisplay, h1, h2]

theorem joinBlankLine_pair (x y : Str) (hy : y ≠ []) :
    joinBlankLine [x, y] = if x = [] then y else x ++ str "\n\n" ++ y := by
  by_cases hx : x = []
  · simp [joinBlankLine, hx, hy, List.intercalate]
  · simp [joinBlankLine, hx, hy, List.intercalate]

/-- C1 (counterexample): the claim as stated fails on a block whose
enclosed code is empty.  The stream delivers a complete
sentinel-delimited code block (`hasCompleteBlock` is true on the final
accumulated text), agent mode is on and a callback is registered, yet the
callback never fires because the truthiness test on the extracted string
rejects the empty code. -/
theorem C1_counterexample :
    (processApplyCodeBlocksForDisplay
      (runStream (agentCfg (str "9") []) (initState [] (agentCfg (str "9") []))
        [[contentEvent (APPLY_CODE_START ++ APPLY_CODE_END), { done := true }]]).accumulatedContent
      true).hasCompleteBlock = true ∧
    (runStream (agentCfg (str "9") []) (initState [] (agentCfg (str "9") []))
        [[contentEvent (APPLY_CODE_START ++ APPLY_CODE_END), { done := true }]]).applyCalls.length = 0 := by
  decide

/-- C1 (amended): during one streamed message with agent mode on and an
apply callback registered, the callback fires at most once in total, and
exactly once whenever the final accumulated text contains a complete
sentinel-delimited block whose trimmed enclosed code is nonempty (a
complete block whose code trims to empty never fires it), no matter how
the events are grouped into chunks or how often the extractor ran. -/
theorem C1_applyOnce (chunks : List (List SEvent)) (prior : List Msg)
    (aiId snap : Str) :
    (runStream (agentCfg aiId snap) (initState prior (agentCfg aiId snap))
        chunks).applyCalls.length ≤ 1 ∧
    (∀ c : Str,
      (processApplyCodeBlocksForDisplay
        (runStream (agentCfg aiId snap) (initState prior (agentCfg aiId snap))
          chunks).accumulatedContent true).extractedCode = some c →
      c ≠ [] →
      (runStream (agentCfg aiId snap) (initState prior (agentCfg aiId snap))
          chunks).applyCalls.length = 1) := by
  have hinv := applyInv_runStream (agentCfg aiId snap) chunks _
    (applyInv_init prior (agentCfg aiId snap))
  obtain ⟨h1, h2⟩ := hinv
  constructor
  · rw [h1]
    split <;> omega
  · intro c hc hne
    by_cases hca : (runStream (agentCfg aiId snap)
        (initState prior (agentCfg aiId snap)) chunks).codeApplied = true
    · rw [h1, if_pos hca]
    · exfalso
      have hfalse := h2 (by simpa using hca)
      have hcomp := hasComplete_of_extracted hc
      rw [shouldApplyCode] at hfalse
      simp only [agentCfg] at hfalse hcomp hc
      rw [hcomp, hc] at hfalse
      simp [strTruthy, hne] at hfalse

/-- C1 (witness): a stream carrying one complete nonempty code block
fires the callback exactly once. -/
theorem C1_applyOnce_witness :
    (processApplyCodeBlocksForDisplay
      (runStream (agentCfg (str "9") []) (initState [] (agentCfg (str "9") []))
        [[contentEvent (str "<<<APPLY_CODE>>>x<<<END_CODE>>>")]]).accumulatedContent
      true).extractedCode = some (str "x") ∧
    (runStream (agentCfg (str "9") []) (initState [] (agentCfg (str "9") []))
        [[contentEvent (str "<<<APPLY_CODE>>>x<<<END_CODE>>>")]]).applyCalls.length = 1 :=
  ⟨by decide,
    (C1_applyOnce [[contentEvent (str "<<<APPLY_CODE>>>x<<<END_CODE>>>")]] []
      (str "9") []).2 (str "x") (by decide) (by decide)⟩

/-- C2: the claim describes the intended error handling (error surfaced,
empty in-flight placeholder removed), and the outer catch of
`sendMessageToBackend` indeed implements exactly that — but the
`throw new Error(data.error)` raised for an `error` stream event sits
inside the inner `try` whose `catch (parseError)` clause is meant for
malformed JSON lines and swallows every exception.  Processing a truthy
`error` event therefore changes nothing: no error is surfaced and the
empty placeholder stays in the list, contradicting the claim. -/
theorem C2_errorSwallowed :
    (runStream plainCfg (initState [] plainCfg)
      [[{ error := some (str "boom") }]]).errorState = none ∧
    (runStream plainCfg (initState [] plainCfg)
      [[{ error := some (str "boom") }]]).messages =
      [{ id := str "9", role := str "assistant", content := [] }] := by
  decide

/-- C3 (counterexample): the extractor is not idempotent when the start
sentinel occurs again after the first complete block.  On such input the
first pass leaves a further complete block in its display output and a
second pass extracts again (and changes the display). -/
theorem C3_counterexample :
    (processApplyCodeBlocksForDisplay
      (processApplyCodeBlocksForDisplay
        (str "<<<APPLY_CODE>>>a<<<END_CODE>>><<<APPLY_CODE>>>b<<<END_CODE>>>")
        false).display false).hasCompleteBlock = true ∧
    (processApplyCodeBlocksForDisplay
      (processApplyCodeBlocksForDisplay
        (str "<<<APPLY_CODE>>>a<<<END_CODE>>><<<APPLY_CODE>>>b<<<END_CODE>>>")
        false).display false).display ≠
      (processApplyCodeBlocksForDisplay
        (str "<<<APPLY_CODE>>>a<<<END_CODE>>><<<APPLY_CODE>>>b<<<END_CODE>>>")
        false).display := by
  decide

/-- C3 (amended): for every input in which the start sentinel occurs at
most once and every reveal flag, a second application of the extractor to
the display output of the first is a no-op: same display, no extracted
code, `hasCompleteBlock` false. -/
theorem C3_idempotent (raw : Str) (f : Bool)
    (h : occursAtMostOnce APPLY_CODE_START raw = true) :
    processApplyCodeBlocksForDisplay
      (processApplyCodeBlocksForDisplay raw f).display f =
      { display := (processApplyCodeBlocksForDisplay raw f).display,
        extractedCode := none, hasCompleteBlock := false } :=
  process_of_no_start f (listIndexOf_eq_none_iff.mpr (display_no_start f h))

/-- C3 (witness): idempotence at a concrete single-block input. -/
theorem C3_idempotent_witness :
    occursAtMostOnce APPLY_CODE_START
      (str "hi <<<APPLY_CODE>>>code<<<END_CODE>>> bye") = true ∧
    processApplyCodeBlocksForDisplay
      (processApplyCodeBlocksForDisplay
        (str "hi <<<APPLY_CODE>>>code<<<END_CODE>>> bye") true).display true =
      { display := (processApplyCodeBlocksForDisplay
          (str "hi <<<APPLY_CODE>>>code<<<END_CODE>>> bye") true).display,
        extractedCode := none, hasCompleteBlock := false } :=
  ⟨by decide,
    C3_idempotent (str "hi <<<APPLY_CODE>>>code<<<END_CODE>>> bye") true
      (by decide)⟩

/-- C4 (counterexample): the in-flight message's content field does not
equal the concatenation of the deltas: the reducer stores the sanitized
display instead.  A single delta equal to the start sentinel leaves the
content field empty. -/
theorem C4_counterexample :
    (runStream plainCfg (initState [] plainCfg)
      [[contentEvent APPLY_CODE_START]]).messages =
      [{ id := str "9", role := str "assistant", content := [] }] ∧
    APPLY_CODE_START ≠ [] := by
  decide

/-- C4 (amended): for any sequence of content events for one in-flight
message id (fresh among the prior messages), after the stream ends the
internal accumulator equals the concatenation of the deltas in arrival
order, and the message's content field equals the sanitized display of
that concatenation (hence the concatenation itself whenever no sentinel
occurs in it). -/
theorem C4_contentConcat (deltas : List Str) (prior : List Msg)
    (cfg : StreamCfg)
    (hFresh : ∀ m ∈ prior, m.id ≠ cfg.aiMessageId) :
    (runStream cfg (initState prior cfg)
        [deltas.map contentEvent]).accumulatedContent = deltas.flatten ∧
    ∃ m : Msg,
      (runStream cfg (initState prior cfg)
          [deltas.map contentEvent]).messages = prior ++ [m] ∧
      m.id = cfg.aiMessageId ∧
      m.content = (processApplyCodeBlocksForDisplay deltas.flatten
        cfg.agentMode).display := by
  have h := contentRun cfg prior hFresh deltas _ (contentInv_init prior cfg)
  have hrs : runStream cfg (initState prior cfg) [deltas.map contentEvent] =
      runChunk cfg (initState prior cfg) (deltas.map contentEvent) := rfl
  rw [hrs]
  obtain ⟨⟨m, hm1, hm2, hm3⟩, hacc⟩ := h
  have hacc' : (runChunk cfg (initState prior cfg)
      (deltas.map contentEvent)).accumulatedContent = deltas.flatten := by
    rw [hacc]
    rfl
  refine ⟨hacc', m, hm1, hm2, ?_⟩
  rw [hm3, hacc']

/-- C4 (witness): two plain deltas concatenate in arrival order and land
verbatim in the content field. -/
theorem C4_contentConcat_witness :
    (runStream plainCfg (initState [] plainCfg)
      [[contentEvent (str "a"), contentEvent (str "b")]]).accumulatedContent =
      [str "a", str "b"].flatten ∧
    ∃ m : Msg,
      (runStream plainCfg (initState [] plainCfg)
        [[contentEvent (str "a"), contentEvent (str "b")]]).messages =
        [] ++ [m] ∧
      m.id = plainCfg.aiMessageId ∧
      m.content = (processApplyCodeBlocksForDisplay [str "a", str "b"].flatten
        plainCfg.agentMode).display :=
  C4_contentConcat [str "a", str "b"] [] plainCfg (by simp)

/-- C5: `computeChangedLines` splits both snapshots on the newline
character, compares index by index up to the longer length with a missing
line read as the empty string, and returns exactly the set of 1-indexed
differing positions; in particular the diff of a text with itself is
empty, and the two concrete examples of the spec hold. -/
theorem C5_lineDiff :
    (∀ (o n : Str) (k : Nat), k ∈ computeChangedLines o n ↔
      1 ≤ k ∧ k ≤ max (splitLines o).length (splitLines n).length ∧
        lineAt o (k - 1) ≠ lineAt n (k - 1)) ∧
    (∀ a : Str, computeChangedLines a a = ∅) ∧
    computeChangedLines (str "x\ny") (str "x\nz") = {2} ∧
    computeChangedLines (str "a") (str "a\nb") = {2} :=
  ⟨fun _ _ _ => mem_computeChangedLines, computeChangedLines_self,
    by decide, by decide⟩

/-- C6 (counterexample): after the clear action the persisted entry for
the chat-history key is not removed in the settled state: `clearChat`
removes it, but the save-on-change effect fires on the changed list and
re-persists the seed list, shown here on the stored history taken from
the spec. -/
theorem C6_counterexample :
    (clearAction
      { messages := [DEFAULT_MESSAGE,
          { id := str "2", role := str "user", content := str "hi" }],
        stored := some [DEFAULT_MESSAGE,
          { id := str "2", role := str "user", content := str "hi" }] }).stored ≠
      none := by
  decide

/-- C6 (amended): for every current state, the clear action resets the
message list to exactly the single default seed message; `clearChat`
itself removes the persisted chat-history entry, but the save-on-change
effect immediately re-persists the seed list, so the settled stored value
is the serialized one-message seed list rather than an absent key. -/
theorem C6_clear (s : PersistedChat) :
    (clearAction s).messages = [DEFAULT_MESSAGE] ∧
    (clearChat s).stored = none ∧
    (clearAction s).stored = some [DEFAULT_MESSAGE] :=
  ⟨rfl, rfl, rfl⟩

/-- C7 (counterexample): in the streaming case the text before the start
sentinel is not shown verbatim: its trailing whitespace is trimmed. -/
theorem C7_counterexample :
    (processApplyCodeBlocksForDisplay (str "a \n<<<APPLY_CODE>>>x")
      false).display = str "a" ∧
    str "a" ≠ str "a \n" := by
  decide

/-- C7 (amended): when the start sentinel is present and no end sentinel
follows it, the extractor returns the text before the start sentinel with
its trailing whitespace trimmed — followed, after a blank-line separator
when that prefix is nonempty, by the "applying" marker if and only if the
reveal flag is true — and no extracted code, with `hasCompleteBlock`
false. -/
theorem C7_streaming (raw : Str) (reveal : Bool) (i : Nat)
    (hstart : listIndexOf APPLY_CODE_START raw = some i)
    (hend : listIndexOfFrom APPLY_CODE_END raw
      (i + APPLY_CODE_START.length) = none) :
    processApplyCodeBlocksForDisplay raw reveal =
      { display :=
          if reveal then
            (if trimEnd (raw.take i) = [] then APPLYING_CODE_MARKER
             else trimEnd (raw.take i) ++ str "\n\n" ++ APPLYING_CODE_MARKER)
          else trimEnd (raw.take i),
        extractedCode := none, hasCompleteBlock := false } := by
  simp only [processApplyCodeBlocksForDisplay, hstart, hend,
    joinBlankLine_pair _ APPLYING_CODE_MARKER (by decide)]

/-- C7 (witness): the amended statement at a concrete streaming input. -/
theorem C7_streaming_witness :
    listIndexOf APPLY_CODE_START (str "a \n<<<APPLY_CODE>>>x") = some 3 ∧
    listIndexOfFrom APPLY_CODE_END (str "a \n<<<APPLY_CODE>>>x")
      (3 + APPLY_CODE_START.length) = none ∧
    processApplyCodeBlocksForDisplay (str "a \n<<<APPLY_CODE>>>x") true =
      { display :=
          if true then
            (if trimEnd ((str "a \n<<<APPLY_CODE>>>x").take 3) = [] then
              APPLYING_CODE_MARKER
             else trimEnd ((str "a \n<<<APPLY_CODE>>>x").take 3) ++
               str "\n\n" ++ APPLYING_CODE_MARKER)
          else trimEnd ((str "a \n<<<APPLY_CODE>>>x").take 3),
        extractedCode := none, hasCompleteBlock := false } :=
  ⟨by decide, by decide,
    C7_streaming (str "a \n<<<APPLY_CODE>>>x") true 3 (by decide) (by decide)⟩

/-- C8: splitting the UTF-8 encoding of any Unicode scalar value between
two network chunks, at any split point, the read loop's incremental
decoder produces exactly that scalar value once both chunks are consumed,
with no replacement character and no leftover state. -/
theorem C8_utf8Straddle (n k : Nat) (h : validScalar n) :
    textDecoderRun [(utf8Encode n).take k, (utf8Encode n).drop k] =
      ([n], []) :=
  textDecoderRun_split h k

/-- C8 (witness): U+00E9 split between its two bytes decodes intact. -/
theorem C8_utf8Straddle_witness :
    validScalar 0xE9 ∧
    textDecoderRun [(utf8Encode 0xE9).take 1, (utf8Encode 0xE9).drop 1] =
      ([0xE9], []) :=
  ⟨by decide, C8_utf8Straddle 0xE9 1 (by decide)⟩

/-- C9 (counterexample): a `data: ` line split across two chunks can
yield a stream event from a fragment: when the line carries trailing
whitespace after its JSON payload, the first fragment is itself a
well-formed `data: ` line and parses.  The claim's "neither fragment
yields a StreamEvent (the first fragment fails the JSON parse)" fails at
this line and split point. -/
theorem C9_counterexample :
    (str "data: \x7b\"done\":true\x7d ").length = 20 ∧
    (streamEvents [(str "data: \x7b\"done\":true\x7d ").take 19,
      (str "data: \x7b\"done\":true\x7d ").drop 19]).length = 1 := by
  decide

/-- C9 (amended): the read loop splits each decoded chunk on newlines
independently and keeps no carry-over text buffer, so a `data: ` line
split across two chunks yields no event from either fragment — unless a
fragment is itself a well-formed event line, an edge case such as the
trailing-whitespace payload above.  For the canonical compact event line
`data: {"content":"hi"}`, every interior split yields no events at all
while the unsplit line yields one, so chunked processing can yield fewer
events than processing the concatenated stream in one chunk. -/
theorem C9_splitLineDropped :
    (∀ k : Nat, k < 22 → 0 < k →
      (streamEvents [(str "data: \x7b\"content\":\"hi\"\x7d").take k,
        (str "data: \x7b\"content\":\"hi\"\x7d").drop k]).length = 0) ∧
    (streamEvents [str "data: \x7b\"content\":\"hi\"\x7d"]).length = 1 ∧
    (str "data: \x7b\"content\":\"hi\"\x7d").length = 22 := by
  refine ⟨?_, by decide, by decide⟩
  decide

/-- C10: an empty changed-line set does not imply equal snapshots: for
every text, appending a trailing newline is invisible to the diff (the
trailing empty line compares equal to the missing line read as empty),
exemplified on unequal concrete snapshots. -/
theorem C10_trailingNewlineInvisible :
    (∀ a : Str, computeChangedLines a (a ++ ['\n']) = ∅) ∧
    str "x" ≠ str "x" ++ ['\n'] ∧
    computeChangedLines (str "x") (str "x" ++ ['\n']) = ∅ :=
  ⟨computeChangedLines_append_newline, by decide,
    computeChangedLines_append_newline (str "x")⟩

/-- C9 (witness): one concrete interior split of the canonical line
yields no events. -/
theorem C9_splitLineDropped_witness :
    7 < 22 ∧ 0 < 7 ∧
    (streamEvents [(str "data: \x7b\"content\":\"hi\"\x7d").take 7,
      (str "data: \x7b\"content\":\"hi\"\x7d").drop 7]).length = 0 :=
  ⟨by decide, by decide, C9_splitLineDropped.1 7 (by decide) (by decide)⟩
